import Mathlib

/-
Verification of sync-blocked-email-domains.

The embedding covers the two source files:
  - src/sync_blocklist.py   (set diff, post_with_retry, rate-limit guard, removal loop)
  - src/sync_blocked_email_domains/main.py  (MastodonEmailBlockSync, pagination, exit codes)

Python sets of domains are modelled as Finset String; iteration order of
sorted(...) is modelled by Finset.sort on the lexicographic String order.
Network traffic is modelled by response oracles passed in as functions, and
the calls a run issues are collected in an explicit trace.  Printing and
logging have no observable effect on the properties below and are dropped.
-/

namespace SyncSpec

/-- Characters removed by Python str.strip (the ASCII whitespace fragment,
which covers every header and domain string handled here). -/
def isPySpace (c : Char) : Bool :=
  c == ' ' || c == '\t' || c == '\n' || c == '\r' || c == '\x0b' || c == '\x0c'

/-- Python str.strip on a character list. -/
def trimChars (l : List Char) : List Char :=
  ((l.dropWhile isPySpace).reverse.dropWhile isPySpace).reverse

/-- Python str.strip. -/
def trimStr (s : String) : String := ⟨trimChars s.data⟩

/-- Python str.lower (ASCII behaviour, which agrees with Char.toLower on the
domain and header strings handled here). -/
def lowerStr (s : String) : String := ⟨s.data.map Char.toLower⟩

/-- Numeric value of a decimal digit string. -/
def digitsVal (l : List Char) : Nat :=
  l.foldl (fun n c => n * 10 + (c.toNat - 48)) 0

/-- Python int(s) on a decimal string: whitespace is stripped, one optional
sign is allowed; none models the ValueError raise. -/
def pyToInt (s : String) : Option Int :=
  match trimChars s.data with
  | [] => none
  | '-' :: rest =>
      if !rest.isEmpty && rest.all Char.isDigit then
        some (-(digitsVal rest : Int))
      else none
  | '+' :: rest =>
      if !rest.isEmpty && rest.all Char.isDigit then
        some ((digitsVal rest : Int))
      else none
  | l =>
      if l.all Char.isDigit then some ((digitsVal l : Int)) else none

/-- Python str.isdigit: nonempty and all characters decimal digits. -/
def pyIsdigit (s : String) : Bool :=
  !s.data.isEmpty && s.data.all Char.isDigit

/-- Python truthiness of an optional header string: present and nonempty. -/
def truthyS : Option String → Bool
  | none => false
  | some s => !s.data.isEmpty

/-- Python s.rstrip of the single character Z, as used on the reset header. -/
def rstripZ (s : String) : String :=
  ⟨(s.data.reverse.dropWhile (fun c => c == 'Z')).reverse⟩

/-- An HTTP response as observed by src/sync_blocklist.py: the status code,
the Retry-After header (modelled as the parsed integer, since the source
applies int() to it directly; none covers an absent or empty header), and the
three X-RateLimit headers as raw optional strings. -/
structure HttpResponse where
  status : Nat
  retryAfter : Option Int
  rlLimit : Option String
  rlRemaining : Option String
  rlReset : Option String
deriving DecidableEq

/-- Outcome of post_with_retry: the returned boolean, the number of POST
attempts issued, and the backoff waits slept between attempts. -/
structure PostOutcome where
  ok : Bool
  attempts : Nat
  waits : List Int
deriving DecidableEq

/-- Loop body of post_with_retry (src/sync_blocklist.py).  The loop runs
while retries is at most max_retries; fuel counts the remaining admissible
iterations, so fuel = maxRetries + 1 - retries throughout.  Status 200 and
422 return True, 429 sleeps (Retry-After if truthy, else 2 ** retries) and
retries, any other status returns False; exhausting the budget returns
False.  The in-loop rate-limit guard only sleeps and is modelled separately
by rateLimitGuard. -/
def postWithRetryGo (resp : Nat → HttpResponse) : Nat → Nat → List Int → PostOutcome
  | 0, retries, ws => ⟨false, retries, ws⟩
  | fuel + 1, retries, ws =>
    if (resp retries).status == 200 then ⟨true, retries + 1, ws⟩
    else if (resp retries).status == 422 then ⟨true, retries + 1, ws⟩
    else if (resp retries).status == 429 then
      postWithRetryGo resp fuel (retries + 1)
        (ws ++ [match (resp retries).retryAfter with
                | some n => n
                | none => (2 : Int) ^ retries])
    else ⟨false, retries + 1, ws⟩

/-- MAX_RETRIES from src/sync_blocklist.py. -/
def MAX_RETRIES : Nat := 5

/-- post_with_retry from src/sync_blocklist.py, over the stream of responses
its successive attempts would receive. -/
def postWithRetry (resp : Nat → HttpResponse) (maxRetries : Nat) : PostOutcome :=
  postWithRetryGo resp (maxRetries + 1) 0 []

/-- The in-loop rate-limit check of post_with_retry (src/sync_blocklist.py,
the block reading the X-RateLimit headers).  iso models
int(datetime.fromisoformat(s).timestamp()), with none for a raise; now models
int(time.time()).  Returns the sleep duration when a pause happens, none when
no pause happens.  A parse failure of the limit or remaining header leaves
rate_remaining a string, so the equality test with 1 is false and no pause
happens; a parse failure of the reset value falls back to now. -/
def rateLimitGuard (iso : String → Option Int) (now : Int) (r : HttpResponse) : Option Int :=
  if truthyS r.rlLimit && truthyS r.rlRemaining && truthyS r.rlReset then
    match pyToInt (r.rlLimit.getD "") with
    | none => none
    | some _ =>
      match pyToInt (r.rlRemaining.getD "") with
      | none => none
      | some rem =>
        let es := r.rlReset.getD ""
        let resetEpoch : Int :=
          if pyIsdigit es then (pyToInt es).getD now
          else (iso (rstripZ es)).getD now
        if rem = 1 then some (max (resetEpoch - now) 1) else none
  else none

/-- A mutation network call issued against the remote service. -/
inductive NetCall where
  | post (domain : String)
  | delete (domain : String)
deriving DecidableEq

/-- The environment of a sync_blocklist run: the response stream each POST
for a domain would receive (indexed by attempt), and the status each DELETE
for a domain would receive. -/
structure SyncEnv where
  postResp : String → Nat → HttpResponse
  deleteStatus : String → Nat

/-- The counters of sync_blocklist (src/sync_blocklist.py) together with the
trace of mutation calls the run issued. -/
structure SyncResult where
  added : Nat
  removed : Nat
  already : Nat
  failed : Nat
  calls : List NetCall
deriving DecidableEq

/-- The three sets computed in sync_blocklist (src/sync_blocklist.py):
to_add, to_remove, already. -/
def computeDiff (desired current : Finset String) :
    Finset String × Finset String × Finset String :=
  (desired \ current, current \ desired, desired ∩ current)

/-- Lexicographic comparison of character lists by code point, the order
Python uses to compare strings. -/
def lexLeB : List Char → List Char → Bool
  | [], _ => true
  | _ :: _, [] => false
  | a :: as, b :: bs =>
    if a.toNat < b.toNat then true
    else if b.toNat < a.toNat then false
    else lexLeB as bs

/-- Python string comparison (by code points). -/
def strLe (a b : String) : Bool := lexLeB a.data b.data

/-- The comparison as a relation, for sorting. -/
def strLeRel (a b : String) : Prop := strLe a b = true

instance : DecidableRel strLeRel :=
  fun a b => inferInstanceAs (Decidable (strLe a b = true))

theorem charEqOfToNat {a b : Char} (h : a.toNat = b.toNat) : a = b :=
  Char.eq_of_val_eq (UInt32.eq_of_toBitVec_eq (BitVec.eq_of_toNat_eq h))

theorem lexLeB_total : ∀ l1 l2 : List Char, lexLeB l1 l2 = true ∨ lexLeB l2 l1 = true := by
  intro l1
  induction l1 with
  | nil => intro l2; left; cases l2 <;> rfl
  | cons a as ih =>
    intro l2
    cases l2 with
    | nil => right; rfl
    | cons b bs =>
      rcases Nat.lt_trichotomy a.toNat b.toNat with h | h | h
      · left; simp [lexLeB, h]
      · rcases ih bs with h2 | h2
        · left; simp [lexLeB, h, h2]
        · right; simp [lexLeB, h, h2]
      · right; simp [lexLeB, h]

set_option linter.unnecessarySeqFocus false in
theorem lexLeB_trans :
    ∀ l1 l2 l3 : List Char, lexLeB l1 l2 = true → lexLeB l2 l3 = true →
      lexLeB l1 l3 = true := by
  intro l1
  induction l1 with
  | nil => intro l2 l3 _ _; cases l3 <;> rfl
  | cons a as ih =>
    intro l2 l3 h12 h23
    cases l2 with
    | nil => simp [lexLeB] at h12
    | cons b bs =>
      cases l3 with
      | nil => simp [lexLeB] at h23
      | cons c cs =>
        simp only [lexLeB] at h12 h23 ⊢
        by_cases hab : a.toNat < b.toNat <;> by_cases hbc : b.toNat < c.toNat <;>
          by_cases hba : b.toNat < a.toNat <;> by_cases hcb : c.toNat < b.toNat <;>
            simp_all <;> (try omega) <;>
              (try { have : a.toNat = b.toNat := by omega
                     have : b.toNat = c.toNat := by omega
                     simp_all; exact ih bs cs h12 h23 })

theorem lexLeB_antisymm :
    ∀ l1 l2 : List Char, lexLeB l1 l2 = true → lexLeB l2 l1 = true → l1 = l2 := by
  intro l1
  induction l1 with
  | nil =>
    intro l2 _ h2
    cases l2 with
    | nil => rfl
    | cons b bs => simp [lexLeB] at h2
  | cons a as ih =>
    intro l2 h1 h2
    cases l2 with
    | nil => simp [lexLeB] at h1
    | cons b bs =>
      simp only [lexLeB] at h1 h2
      by_cases hab : a.toNat < b.toNat <;> by_cases hba : b.toNat < a.toNat <;> simp_all
      · omega
      · have hn : a.toNat = b.toNat := by omega
        have hb : a = b := charEqOfToNat hn
        subst hb
        simp_all
        exact ih bs h1 h2

instance : IsTotal String strLeRel := ⟨fun a b => lexLeB_total a.data b.data⟩

instance : IsTrans String strLeRel :=
  ⟨fun a b c h1 h2 => lexLeB_trans a.data b.data c.data h1 h2⟩

instance : IsAntisymm String strLeRel :=
  ⟨fun a b h1 h2 => by
    have h := lexLeB_antisymm a.data b.data h1 h2
    cases a; cases b; simp_all⟩

/-- Python sorted(...) over a set of domains: the sorted list of its
elements under code-point string comparison.  Well defined on the
underlying multiset because two sorted permutations of each other
coincide. -/
def sortedList (s : Finset String) : List String :=
  Quot.liftOn s.val (List.insertionSort strLeRel) (fun a b h =>
    List.eq_of_perm_of_sorted
      ((List.perm_insertionSort _ a).trans ((Quotient.exact (Quot.sound h)).trans
        (List.perm_insertionSort _ b).symm))
      (List.sorted_insertionSort _ a) (List.sorted_insertionSort _ b))

/-- Body of the add loop of sync_blocklist: in dry-run mode nothing happens;
a domain already in the current set is counted already; otherwise
post_with_retry runs, each of its attempts issuing one POST, and the domain
is counted added or failed by its boolean result. -/
def addStep (env : SyncEnv) (dryRun : Bool) (current : Finset String)
    (acc : SyncResult) (d : String) : SyncResult :=
  if dryRun then acc
  else if d ∈ current then { acc with already := acc.already + 1 }
  else
    let o := postWithRetry (env.postResp d) MAX_RETRIES
    let acc' := { acc with calls := acc.calls ++ List.replicate o.attempts (NetCall.post d) }
    if o.ok then { acc' with added := acc'.added + 1 }
    else { acc' with failed := acc'.failed + 1 }

/-- Body of the removal loop of sync_blocklist: in dry-run mode nothing
happens; otherwise a single DELETE is issued, counted removed on status 200
and failed on any other status (there is no retry on this path). -/
def removeStep (env : SyncEnv) (dryRun : Bool) (acc : SyncResult) (d : String) : SyncResult :=
  if dryRun then acc
  else
    let acc' := { acc with calls := acc.calls ++ [NetCall.delete d] }
    if env.deleteStatus d == 200 then { acc' with removed := acc'.removed + 1 }
    else { acc' with failed := acc'.failed + 1 }

/-- sync_blocklist from src/sync_blocklist.py: the add loop runs over the
sorted desired set, the removal loop over the sorted to_remove set, with all
counters starting at zero. -/
def syncBlocklist (env : SyncEnv) (dryRun : Bool) (desired current : Finset String) :
    SyncResult :=
  (sortedList (computeDiff desired current).2.1).foldl (removeStep env dryRun)
    ((sortedList desired).foldl (addStep env dryRun current) ⟨0, 0, 0, 0, []⟩)

/-- get_mastodon_blocklist from src/sync_blocklist.py: the set comprehension
over the fetched block records inserts each domain value as returned, without
any case normalization. -/
def get_mastodon_blocklist (blocks : List String) : Finset String :=
  blocks.foldl (fun s d => insert d s) ∅

/-- main from src/sync_blocklist.py: it calls sync_blocklist, ignores the
counters, and the process then exits with status 0 (no exit code is derived
from the outcome). -/
def syncMain (env : SyncEnv) (dryRun : Bool) (desired current : Finset String) :
    SyncResult × Nat :=
  (syncBlocklist env dryRun desired current, 0)

/-- Python s[1:-1], dropping the first and last character. -/
def sliceInner (l : List Char) : List Char :=
  (l.drop 1).dropLast

/-- Splitting a character list on a separator character, as Python str.split
with a one-character separator. -/
def splitOnCharAux (c : Char) : List Char → List Char → List (List Char)
  | [], cur => [cur.reverse]
  | x :: xs, cur =>
    if x == c then cur.reverse :: splitOnCharAux c xs []
    else splitOnCharAux c xs (x :: cur)

/-- Python str.split with a one-character separator. -/
def splitOnChar (c : Char) (l : List Char) : List (List Char) :=
  splitOnCharAux c l []

/-- Whether the first list is a prefix of the second. -/
def prefixOf : List Char → List Char → Bool
  | [], _ => true
  | _ :: _, [] => false
  | a :: as, b :: bs => a == b && prefixOf as bs

/-- Python substring containment (the in operator on strings). -/
def containsSub (needle : List Char) : List Char → Bool
  | [] => needle.isEmpty
  | h :: t => prefixOf needle (h :: t) || containsSub needle t

/-- The characters of the link relation marker searched for in the Link
header. -/
def relNext : List Char := "rel=\"next\"".data

/-- The for loop of _parse_next_link (src/sync_blocked_email_domains/main.py):
the first comma-separated entry that splits on a semicolon into exactly two
parts whose second part contains the next relation yields its stripped,
angle-trimmed first part; otherwise the empty string. -/
def findNextUrl : List (List Char) → List Char
  | [] => []
  | link :: rest =>
    let parts := splitOnChar ';' link
    if parts.length == 2 then
      let url := sliceInner (trimChars (parts.headD []))
      let rel := trimChars (parts.getD 1 [])
      if containsSub relNext rel then url else findNextUrl rest
    else findNextUrl rest

/-- _parse_next_link from src/sync_blocked_email_domains/main.py. -/
def parseNextLink (linkHeader : String) : String :=
  if linkHeader.data.isEmpty then ""
  else ⟨findNextUrl (splitOnChar ',' linkHeader.data)⟩

/-- One page of get_existing_blocks inserts the lower-cased domain of every
record of the page into the accumulated set
(src/sync_blocked_email_domains/main.py). -/
def addLower (acc : Finset String) (blocks : List String) : Finset String :=
  blocks.foldl (fun s b => insert (lowerStr b) s) acc

/-- The pagination loop of get_existing_blocks
(src/sync_blocked_email_domains/main.py): while the url is nonempty, fetch
the page (its domain records and its Link header), insert the lower-cased
domains, and continue with the parsed next link.  fetch models the remote
service; fuel bounds the number of pages and none reports exhaustion, which
the source loop would express as nontermination on a cyclic link chain. -/
def getExistingBlocksAux (fetch : String → List String × String) :
    Nat → String → Finset String → Option (Finset String)
  | 0, url, acc => if url = "" then some acc else none
  | fuel + 1, url, acc =>
    if url = "" then some acc
    else
      let page := fetch url
      getExistingBlocksAux fetch fuel (parseNextLink page.2) (addLower acc page.1)

/-- get_existing_blocks from src/sync_blocked_email_domains/main.py,
starting from the admin endpoint url with an empty accumulated set. -/
def getExistingBlocks (fetch : String → List String × String) (fuel : Nat)
    (url : String) : Option (Finset String) :=
  getExistingBlocksAux fetch fuel url ∅

/-- Whether a stripped source line starts with the comment marker. -/
def startsWithHash (s : String) : Bool :=
  match s.data with
  | [] => false
  | c :: _ => c == '#'

/-- fetch_disposable_domains from src/sync_blocked_email_domains/main.py over
the lines of the fetched body: each line is stripped, blank lines and comment
lines are skipped, and the remaining lines are inserted lower-cased. -/
def fetch_disposable_domains (lines : List String) : Finset String :=
  lines.foldl
    (fun acc line =>
      let l := trimStr line
      if !l.data.isEmpty && !startsWithHash l then insert (lowerStr l) acc
      else acc) ∅

/-- The statistics dictionary built by sync_domains
(src/sync_blocked_email_domains/main.py). -/
structure MainStats where
  total_disposable : Nat
  existing_blocks : Nat
  to_add : Nat
  added : Nat
  failed : Nat
deriving DecidableEq

/-- Body of the add loop of sync_domains: block_domain issues exactly one
POST, and its boolean result decides between added and failed.  blockOk
models whether the POST for a domain succeeds (raise_for_status raising on
any non-success status makes block_domain return False). -/
def blockStep (blockOk : String → Bool) (acc : MainStats × List NetCall) (d : String) :
    MainStats × List NetCall :=
  let calls := acc.2 ++ [NetCall.post d]
  if blockOk d then ({ acc.1 with added := acc.1.added + 1 }, calls)
  else ({ acc.1 with failed := acc.1.failed + 1 }, calls)

/-- sync_domains from src/sync_blocked_email_domains/main.py: the to-add set
is the difference of the two fetched sets; an empty to-add set and a dry run
both return the initial statistics without issuing any call; otherwise the
add loop runs over the sorted to-add set. -/
def sync_domains (blockOk : String → Bool) (dryRun : Bool)
    (disposable existing : Finset String) : MainStats × List NetCall :=
  let toAdd := disposable \ existing
  let stats : MainStats := ⟨disposable.card, existing.card, toAdd.card, 0, 0⟩
  if toAdd = ∅ then (stats, [])
  else if dryRun then (stats, [])
  else (sortedList toAdd).foldl (blockStep blockOk) (stats, [])

/-- main from src/sync_blocked_email_domains/main.py: exit 1 when the host or
token configuration value is absent or empty, exit 1 when the sync raises,
exit 1 when the returned statistics report a positive failed count, exit 0
otherwise.  outcome abstracts the try block around sync_domains. -/
def mainExit (host token : Option String) (outcome : Except Unit MainStats) : Nat :=
  if !truthyS host then 1
  else if !truthyS token then 1
  else
    match outcome with
    | Except.error _ => 1
    | Except.ok st => if st.failed > 0 then 1 else 0

/-- A response stream answering every attempt with a rate-limit rejection. -/
def resp429 : Nat → HttpResponse := fun _ => ⟨429, none, none, none, none⟩

/-- An environment whose POSTs are always rate-limited and whose DELETEs
succeed. -/
def envR429 : SyncEnv := ⟨fun _ _ => ⟨429, none, none, none, none⟩, fun _ => 200⟩

/-- An environment whose POSTs always answer 422 (already exists). -/
def env422 : SyncEnv := ⟨fun _ _ => ⟨422, none, none, none, none⟩, fun _ => 200⟩

/-- An environment whose POSTs succeed and whose DELETEs are rate-limited. -/
def envD429 : SyncEnv := ⟨fun _ _ => ⟨200, none, none, none, none⟩, fun _ => 429⟩

/-- An environment where every mutation succeeds. -/
def env200 : SyncEnv := ⟨fun _ _ => ⟨200, none, none, none, none⟩, fun _ => 200⟩

/-- The backoff schedule of post_with_retry, as a closed form: for n retried
attempts starting at retry index k, each wait is the Retry-After hint of the
rejected response when present and otherwise 2 ** (retry index). -/
def expWaits (resp : Nat → HttpResponse) : Nat → Nat → List Int
  | 0, _ => []
  | n + 1, k =>
    (match (resp k).retryAfter with
     | some w => w
     | none => (2 : Int) ^ k) :: expWaits resp n (k + 1)

/-- A response stream with 429 on attempts 0 and 2, a 429 carrying a
Retry-After hint of 7 on attempt 1, and 200 from attempt 3 on. -/
def respExp : Nat → HttpResponse := fun k =>
  if k = 1 then ⟨429, some 7, none, none, none⟩
  else if k < 3 then ⟨429, none, none, none, none⟩
  else ⟨200, none, none, none, none⟩

/-- An ISO parse oracle that always fails. -/
def isoNone : String → Option Int := fun _ => none

/-- A remote state of two pages of two domains each, the first page carrying a
next-page link. -/
def pages2 : String → List String × String := fun u =>
  if u = "page1" then (["a.com", "b.com"], "<page2>; rel=\"next\"")
  else if u = "page2" then (["c.com", "d.com"], "")
  else ([], "")

/-- A remote state of a single page with no continuation link. -/
def pagesOne : String → List String × String := fun _ => (["x.com"], "")

/-! Basic properties of the model used by several theorems. -/

theorem mem_sortedList {a : String} {s : Finset String} : a ∈ sortedList s ↔ a ∈ s := by
  obtain ⟨val, hn⟩ := s
  induction val using Quotient.inductionOn with
  | h l =>
    rw [Finset.mem_mk]
    exact (List.mem_insertionSort strLeRel).trans Multiset.mem_coe.symm

theorem length_sortedList (s : Finset String) : (sortedList s).length = s.card := by
  obtain ⟨val, hn⟩ := s
  induction val using Quotient.inductionOn with
  | h l =>
    show (List.insertionSort strLeRel l).length = Multiset.card (l : Multiset String)
    rw [List.length_insertionSort, Multiset.coe_card]

theorem foldl_id {α β : Type} (g : α → β → α) (hg : ∀ a b, g a b = a) :
    ∀ (l : List β) (a : α), l.foldl g a = a := by
  intro l
  induction l with
  | nil => intro a; rfl
  | cons x xs ih => intro a; rw [List.foldl_cons, hg, ih]

theorem blockStep_fold_added_failed (f : String → Bool) :
    ∀ (l : List String) (st : MainStats) (cs : List NetCall),
      (l.foldl (blockStep f) (st, cs)).1.added + (l.foldl (blockStep f) (st, cs)).1.failed
        = st.added + st.failed + l.length := by
  intro l
  induction l with
  | nil => intro st cs; simp
  | cons d ds ih =>
    intro st cs
    rw [List.foldl_cons]
    by_cases h : f d <;> simp [blockStep, h, ih] <;> omega

theorem blockStep_fold_to_add (f : String → Bool) :
    ∀ (l : List String) (st : MainStats) (cs : List NetCall),
      (l.foldl (blockStep f) (st, cs)).1.to_add = st.to_add := by
  intro l
  induction l with
  | nil => intro st cs; rfl
  | cons d ds ih =>
    intro st cs
    rw [List.foldl_cons]
    by_cases h : f d <;> simp [blockStep, h, ih]

/-- C1: for every desired set D and current set C, the computed diff satisfies
ToAdd ∩ ToRemove = ∅, ToAdd ∪ Already = D, and ToRemove ∪ Already = C, where
ToAdd = D − C, ToRemove = C − D, Already = D ∩ C. -/
theorem C1_set_algebra (D C : Finset String) :
    (computeDiff D C).1 ∩ (computeDiff D C).2.1 = ∅
    ∧ (computeDiff D C).1 ∪ (computeDiff D C).2.2 = D
    ∧ (computeDiff D C).2.1 ∪ (computeDiff D C).2.2 = C := by
  refine ⟨?_, ?_, ?_⟩ <;> simp only [computeDiff]
  · ext x; simp; tauto
  · exact Finset.sdiff_union_inter D C
  · rw [Finset.inter_comm]
    exact Finset.sdiff_union_inter C D

/-- C2: with the dry-run flag enabled, neither implementation issues any
mutation network call (the call trace is empty) and the statistics report
zero added and zero removed domains, regardless of the diff. -/
theorem C2_dry_run_purity (env : SyncEnv) (desired current : Finset String)
    (blockOk : String → Bool) (disposable existing : Finset String) :
    syncBlocklist env true desired current = ⟨0, 0, 0, 0, []⟩
    ∧ (sync_domains blockOk true disposable existing).2 = []
    ∧ (sync_domains blockOk true disposable existing).1.added = 0
    ∧ (sync_domains blockOk true disposable existing).1.failed = 0 := by
  refine ⟨?_, ?_, ?_, ?_⟩
  · unfold syncBlocklist
    rw [foldl_id (addStep env true current) (fun a b => rfl),
        foldl_id (removeStep env true) (fun a b => rfl)]
  · by_cases h : disposable \ existing = ∅ <;> simp [sync_domains, h]
  · by_cases h : disposable \ existing = ∅ <;> simp [sync_domains, h]
  · by_cases h : disposable \ existing = ∅ <;> simp [sync_domains, h]

/-- C10: in a non-dry run of sync_domains the returned statistics satisfy
added + failed = to_add, and in dry-run mode added = failed = 0 while to_add
still reports the size of the computed diff. -/
theorem C10_added_failed_partition (f : String → Bool)
    (disposable existing : Finset String) :
    ((sync_domains f false disposable existing).1.added
      + (sync_domains f false disposable existing).1.failed
      = (sync_domains f false disposable existing).1.to_add)
    ∧ (sync_domains f true disposable existing).1.added = 0
    ∧ (sync_domains f true disposable existing).1.failed = 0
    ∧ (sync_domains f true disposable existing).1.to_add
        = (disposable \ existing).card := by
  refine ⟨?_, ?_, ?_, ?_⟩
  · by_cases h : disposable \ existing = ∅
    · simp [sync_domains, h]
    · simp only [sync_domains, h, if_false, Bool.false_eq_true]
      rw [blockStep_fold_added_failed, blockStep_fold_to_add]
      simp [length_sortedList]
  · by_cases h : disposable \ existing = ∅ <;> simp [sync_domains, h]
  · by_cases h : disposable \ existing = ∅ <;> simp [sync_domains, h]
  · by_cases h : disposable \ existing = ∅ <;> simp [sync_domains, h]

theorem postGo_all429 (resp : Nat → HttpResponse) (h : ∀ n, (resp n).status = 429) :
    ∀ (fuel retries : Nat) (ws : List Int),
      ∃ ws2, postWithRetryGo resp fuel retries ws = ⟨false, retries + fuel, ws2⟩ := by
  intro fuel
  induction fuel with
  | zero => intro retries ws; exact ⟨ws, rfl⟩
  | succ n ih =>
    intro retries ws
    have hr := h retries
    obtain ⟨ws2, hws⟩ :=
      ih (retries + 1)
        (ws ++ [match (resp retries).retryAfter with
                | some w => w
                | none => (2 : Int) ^ retries])
    refine ⟨ws2, ?_⟩
    have harith : retries + 1 + n = retries + (n + 1) := by omega
    rw [harith] at hws
    simp only [postWithRetryGo, hr]
    norm_num
    exact hws

theorem postGo_attempts_le (resp : Nat → HttpResponse) :
    ∀ (fuel retries : Nat) (ws : List Int),
      (postWithRetryGo resp fuel retries ws).attempts ≤ retries + fuel := by
  intro fuel
  induction fuel with
  | zero => intro retries ws; exact Nat.le_refl _
  | succ n ih =>
    intro retries ws
    simp only [postWithRetryGo]
    by_cases h200 : (resp retries).status == 200
    · simp [h200]
    · by_cases h422 : (resp retries).status == 422
      · simp [h200, h422]
      · by_cases h429 : (resp retries).status == 429
        · simp only [h200, h422, h429, Bool.false_eq_true, if_true, if_false]
          calc (postWithRetryGo resp n (retries + 1) _).attempts
              ≤ retries + 1 + n := ih _ _
            _ ≤ retries + (n + 1) := by omega
        · simp [h200, h422, h429]

/-- C4 (amended): a mutation whose every response is a rate-limit rejection is
attempted exactly MAX_RETRIES + 1 = 6 times (one initial attempt plus
MAX_RETRIES retries), returns failure, and the domain is recorded as failed;
no mutation is ever attempted more than MAX_RETRIES + 1 times. -/
theorem C4_retry_bound_amended (env : SyncEnv) (d : String) (current : Finset String)
    (acc : SyncResult) (h : ∀ n, (env.postResp d n).status = 429) (hc : d ∉ current) :
    (postWithRetry (env.postResp d) MAX_RETRIES).ok = false
    ∧ (postWithRetry (env.postResp d) MAX_RETRIES).attempts = MAX_RETRIES + 1
    ∧ (addStep env false current acc d).failed = acc.failed + 1
    ∧ ∀ resp2 : Nat → HttpResponse,
        (postWithRetry resp2 MAX_RETRIES).attempts ≤ MAX_RETRIES + 1 := by
  obtain ⟨ws2, hws⟩ := postGo_all429 (env.postResp d) h (MAX_RETRIES + 1) 0 []
  have hpost : postWithRetry (env.postResp d) MAX_RETRIES
      = ⟨false, MAX_RETRIES + 1, ws2⟩ := by
    unfold postWithRetry
    rw [hws]
    norm_num
  refine ⟨by rw [hpost], by rw [hpost], ?_, ?_⟩
  · simp [addStep, hc, hpost]
  · intro resp2
    have := postGo_attempts_le resp2 (MAX_RETRIES + 1) 0 []
    unfold postWithRetry
    omega

/-- C4 counterexample: under all-429 responses the mutation is attempted 6
times, which exceeds the claimed bound of MAX_RETRIES = 5 attempts. -/
theorem C4_counterexample :
    (postWithRetry resp429 MAX_RETRIES).attempts = 6
    ∧ ¬ (postWithRetry resp429 MAX_RETRIES).attempts ≤ MAX_RETRIES := by decide

theorem C4_retry_bound_amended_witness :
    (postWithRetry (envR429.postResp "x.com") MAX_RETRIES).ok = false
    ∧ (postWithRetry (envR429.postResp "x.com") MAX_RETRIES).attempts = MAX_RETRIES + 1
    ∧ (addStep envR429 false ∅ ⟨0, 0, 0, 0, []⟩ "x.com").failed
        = (⟨0, 0, 0, 0, []⟩ : SyncResult).failed + 1
    ∧ ∀ resp2 : Nat → HttpResponse,
        (postWithRetry resp2 MAX_RETRIES).attempts ≤ MAX_RETRIES + 1 :=
  C4_retry_bound_amended envR429 "x.com" ∅ ⟨0, 0, 0, 0, []⟩ (fun _ => rfl) (by decide)

/-- C5: an add mutation answered 422 (already exists/unprocessable) returns
success after a single attempt, and the add loop then counts the domain
toward added, not failed. -/
theorem C5_duplicate_add (env : SyncEnv) (current : Finset String) (acc : SyncResult)
    (d : String) (h422 : (env.postResp d 0).status = 422) (hc : d ∉ current) :
    postWithRetry (env.postResp d) MAX_RETRIES = ⟨true, 1, []⟩
    ∧ addStep env false current acc d
        = { acc with added := acc.added + 1,
                     calls := acc.calls ++ [NetCall.post d] } := by
  have h1 : postWithRetry (env.postResp d) MAX_RETRIES = ⟨true, 1, []⟩ := by
    unfold postWithRetry MAX_RETRIES
    simp [postWithRetryGo, h422]
  exact ⟨h1, by simp [addStep, hc, h1]⟩

theorem C5_duplicate_add_witness :
    postWithRetry (env422.postResp "x.com") MAX_RETRIES = ⟨true, 1, []⟩
    ∧ addStep env422 false ∅ ⟨0, 0, 0, 0, []⟩ "x.com"
        = { (⟨0, 0, 0, 0, []⟩ : SyncResult) with
              added := (⟨0, 0, 0, 0, []⟩ : SyncResult).added + 1,
              calls := (⟨0, 0, 0, 0, []⟩ : SyncResult).calls ++ [NetCall.post "x.com"] } :=
  C5_duplicate_add env422 ∅ ⟨0, 0, 0, 0, []⟩ "x.com" rfl (by decide)

theorem postGo_429_run (resp : Nat → HttpResponse) :
    ∀ (n fuel retries : Nat) (ws : List Int),
      n < fuel →
      (∀ k, retries ≤ k → k < retries + n → (resp k).status = 429) →
      (resp (retries + n)).status = 200 →
      postWithRetryGo resp fuel retries ws
        = ⟨true, retries + n + 1, ws ++ expWaits resp n retries⟩ := by
  intro n
  induction n with
  | zero =>
    intro fuel retries ws hfuel _ h200
    cases fuel with
    | zero => omega
    | succ m =>
      have h200' : (resp retries).status = 200 := by simpa using h200
      simp [postWithRetryGo, h200', expWaits]
  | succ n ih =>
    intro fuel retries ws hfuel h429 h200
    cases fuel with
    | zero => omega
    | succ m =>
      have hr : (resp retries).status = 429 := h429 retries (Nat.le_refl _) (by omega)
      have h429' : ∀ k, retries + 1 ≤ k → k < retries + 1 + n → (resp k).status = 429 :=
        fun k hk1 hk2 => h429 k (by omega) (by omega)
      have h200' : (resp (retries + 1 + n)).status = 200 := by
        rw [show retries + 1 + n = retries + (n + 1) from by omega]
        exact h200
      have hws := ih m (retries + 1)
        (ws ++ [match (resp retries).retryAfter with
                | some w => w
                | none => (2 : Int) ^ retries])
        (by omega) h429' h200'
      rw [List.append_assoc] at hws
      rw [show retries + 1 + n + 1 = retries + (n + 1) + 1 from by omega] at hws
      simp only [postWithRetryGo, hr]
      norm_num
      exact hws

/-- C7 (amended): add mutations run through the retry/backoff executor — a
run of n rate-limit rejections (n at most MAX_RETRIES) followed by a success
performs exactly n + 1 attempts, each retry k waiting the server hint when
present and otherwise 2 ** k, and no mutation is ever attempted more than
MAX_RETRIES + 1 times — but remove mutations are a single DELETE with no
retry: any non-200 response on the delete path is immediately counted
failed. -/
theorem C7_retry_paths_amended (resp : Nat → HttpResponse) (env : SyncEnv)
    (acc : SyncResult) (d : String) (n : Nat)
    (hn : n ≤ MAX_RETRIES)
    (h429 : ∀ k, k < n → (resp k).status = 429)
    (h200 : (resp n).status = 200) :
    postWithRetry resp MAX_RETRIES = ⟨true, n + 1, expWaits resp n 0⟩
    ∧ (∀ resp2 : Nat → HttpResponse,
        (postWithRetry resp2 MAX_RETRIES).attempts ≤ MAX_RETRIES + 1)
    ∧ (env.deleteStatus d ≠ 200 →
        removeStep env false acc d
          = { acc with failed := acc.failed + 1,
                       calls := acc.calls ++ [NetCall.delete d] }) := by
  refine ⟨?_, ?_, ?_⟩
  · have h := postGo_429_run resp n (MAX_RETRIES + 1) 0 [] (by omega)
      (fun k hk0 hkn => h429 k (by omega))
      (by rw [Nat.zero_add]; exact h200)
    unfold postWithRetry
    rw [h]
    norm_num
  · intro resp2
    have hb := postGo_attempts_le resp2 (MAX_RETRIES + 1) 0 []
    unfold postWithRetry
    omega
  · intro hd
    have hb : (env.deleteStatus d == 200) = false := by simp [hd]
    simp [removeStep, hb]

/-- C7 counterexample: a removal whose only response is a transient 429 is not
retried: the run issues exactly one DELETE and immediately counts the domain
failed. -/
theorem C7_counterexample :
    syncBlocklist envD429 false ∅ {"d.com"}
      = ⟨0, 0, 0, 1, [NetCall.delete "d.com"]⟩ := by decide

theorem C7_retry_paths_amended_witness :
    postWithRetry respExp MAX_RETRIES = ⟨true, 3 + 1, expWaits respExp 3 0⟩
    ∧ (∀ resp2 : Nat → HttpResponse,
        (postWithRetry resp2 MAX_RETRIES).attempts ≤ MAX_RETRIES + 1)
    ∧ (envD429.deleteStatus "d.com" ≠ 200 →
        removeStep envD429 false ⟨0, 0, 0, 0, []⟩ "d.com"
          = { (⟨0, 0, 0, 0, []⟩ : SyncResult) with
                failed := (⟨0, 0, 0, 0, []⟩ : SyncResult).failed + 1,
                calls := (⟨0, 0, 0, 0, []⟩ : SyncResult).calls
                  ++ [NetCall.delete "d.com"] }) :=
  C7_retry_paths_amended respExp envD429 ⟨0, 0, 0, 0, []⟩ "d.com" 3
    (by decide) (by decide) (by decide)

/-- The schedule of the witness stream evaluates to the hint at retry 1 and
to 2 ** k at retries 0 and 2, and the witness run issues 4 attempts. -/
theorem expWaits_respExp_eval : expWaits respExp 3 0 = [1, 7, 4] := by decide

theorem mem_addLower_of_acc {a : String} (acc : Finset String) (blocks : List String)
    (ha : a ∈ acc) : a ∈ addLower acc blocks := by
  induction blocks generalizing acc with
  | nil => exact ha
  | cons c cs ih => exact ih (insert (lowerStr c) acc) (Finset.mem_insert_of_mem ha)

theorem mem_addLower {b : String} (acc : Finset String) (blocks : List String)
    (hb : b ∈ blocks) : lowerStr b ∈ addLower acc blocks := by
  induction blocks generalizing acc with
  | nil => cases hb
  | cons c cs ih =>
    rcases List.mem_cons.mp hb with h | h
    · subst h
      exact mem_addLower_of_acc (insert (lowerStr b) acc) cs (Finset.mem_insert_self _ _)
    · exact ih (insert (lowerStr c) acc) h

theorem blockStep_fold_calls (f : String → Bool) :
    ∀ (l : List String) (st : MainStats) (cs : List NetCall) (c : NetCall),
      c ∈ (l.foldl (blockStep f) (st, cs)).2 →
        c ∈ cs ∨ ∃ d ∈ l, c = NetCall.post d := by
  intro l
  induction l with
  | nil => intro st cs c hc; exact Or.inl hc
  | cons d ds ih =>
    intro st cs c hc
    rw [List.foldl_cons] at hc
    have hstep : blockStep f (st, cs) d
        = ((blockStep f (st, cs) d).1, cs ++ [NetCall.post d]) := by
      by_cases hf : f d <;> simp [blockStep, hf]
    rw [hstep] at hc
    rcases ih (blockStep f (st, cs) d).1 (cs ++ [NetCall.post d]) c hc with h1 | ⟨e, he, hce⟩
    · rcases List.mem_append.mp h1 with h2 | h2
      · exact Or.inl h2
      · refine Or.inr ⟨d, List.mem_cons_self d ds, ?_⟩
        simpa using h2
    · exact Or.inr ⟨e, List.mem_cons_of_mem d he, hce⟩

theorem sync_domains_calls (f : String → Bool) (disposable existing : Finset String)
    (c : NetCall) (hc : c ∈ (sync_domains f false disposable existing).2) :
    ∃ d ∈ disposable \ existing, c = NetCall.post d := by
  by_cases h : disposable \ existing = ∅
  · simp [sync_domains, h] at hc
  · simp only [sync_domains, h, if_false, Bool.false_eq_true] at hc
    rcases blockStep_fold_calls f (sortedList (disposable \ existing)) _ [] c hc with
      h1 | ⟨d, hd, hce⟩
    · cases h1
    · exact ⟨d, mem_sortedList.mp hd, hce⟩

/-- C3 counterexample: in sync_blocklist.py a domain present in both lists
but differing only in letter case is not treated as already blocked: the
fetched casing is kept, the domain is re-added with a POST, and nothing is
counted already blocked. -/
theorem C3_counterexample :
    lowerStr "Example.com" = "example.com"
    ∧ syncBlocklist env200 false {"example.com"}
        (get_mastodon_blocklist ["Example.com"])
      = ⟨1, 1, 0, 0, [NetCall.post "example.com", NetCall.delete "Example.com"]⟩ := by
  decide

/-- C3 (amended): in main.py every domain fetched from the remote service is
lower-cased before insertion into the current set, so a source domain whose
lower-casing matches a remote domain is never in the to-add set and no add
call is issued for it; sync_blocklist.py's fetcher, by contrast, keeps the
remote casing and re-adds such a domain. -/
theorem C3_case_normalization_amended (lines blocks : List String) (f : String → Bool)
    (s b : String) (hs : s ∈ fetch_disposable_domains lines) (hb : b ∈ blocks)
    (heq : s = lowerStr b) :
    s ∉ fetch_disposable_domains lines \ addLower ∅ blocks
    ∧ NetCall.post s ∉
        (sync_domains f false (fetch_disposable_domains lines) (addLower ∅ blocks)).2 := by
  have hE : s ∈ addLower ∅ blocks := by
    rw [heq]
    exact mem_addLower ∅ blocks hb
  constructor
  · intro hmem
    exact (Finset.mem_sdiff.mp hmem).2 hE
  · intro hcall
    obtain ⟨d, hd, hde⟩ := sync_domains_calls f _ _ _ hcall
    have hds : d = s := (NetCall.post.injEq s d).mp hde |>.symm
    subst hds
    exact (Finset.mem_sdiff.mp hd).2 hE

theorem C3_case_normalization_amended_witness :
    "example.com" ∉
        fetch_disposable_domains ["Example.COM"] \ addLower ∅ ["EXAMPLE.com"]
    ∧ NetCall.post "example.com" ∉
        (sync_domains (fun _ => true) false (fetch_disposable_domains ["Example.COM"])
          (addLower ∅ ["EXAMPLE.com"])).2 :=
  C3_case_normalization_amended ["Example.COM"] ["EXAMPLE.com"] (fun _ => true)
    "example.com" "EXAMPLE.com" (by decide) (by decide) (by decide)

/-- C6 (amended): main.py's entry point exits 0 exactly when the host and
token are present, the sync returned normally, and no mutation failed;
sync_blocklist.py's entry point, however, always exits 0 when it returns,
even when mutations failed. -/
theorem C6_exit_amended (host token : Option String) (outcome : Except Unit MainStats)
    (env : SyncEnv) (dryRun : Bool) (desired current : Finset String) :
    (mainExit host token outcome = 0 ↔
      truthyS host = true ∧ truthyS token = true
        ∧ ∃ st, outcome = Except.ok st ∧ st.failed = 0)
    ∧ (syncMain env dryRun desired current).2 = 0 := by
  refine ⟨?_, rfl⟩
  unfold mainExit
  cases hh : truthyS host
  · simp
  · cases ht : truthyS token
    · simp
    · cases outcome with
      | error e => simp
      | ok st =>
        by_cases hf : st.failed > 0
        · simp [hf]
          omega
        · simp [hf]
          omega

/-- C6 counterexample: a sync_blocklist.py run in which a mutation failed
still ends with process exit status 0. -/
theorem C6_counterexample :
    (syncMain envD429 false ∅ {"d.com"}).1.failed = 1
    ∧ (syncMain envD429 false ∅ {"d.com"}).2 = 0 := by decide

/-- C8 counterexample: the remaining-quota field is present, parses to
exactly 1, and the reset field is present and parsable, yet no pause happens
because the limit header is absent (the code requires all three headers). -/
theorem C8_counterexample :
    rateLimitGuard isoNone 0 ⟨200, none, none, some "1", some "10"⟩ = none
    ∧ pyToInt "1" = some 1 ∧ pyToInt "10" = some 10
    ∧ truthyS (some "1") = true ∧ truthyS (some "10") = true := by decide

/-- C8 (amended): the in-loop rate-limit guard of post_with_retry (run once
per POST attempt on the add path; the removal path reads no rate-limit
headers and never pauses) applies a pause only when all three rate-limit
headers (limit, remaining, reset) are present and the limit and remaining
values parse as integers with remaining exactly 1: an absent limit,
remaining or reset header, an unparsable limit or remaining value, or a
remaining value other than 1 all yield no pause.  Every pause lasts at
least 1 time unit; with a digit reset value the wait is reset − now clamped
to 1; and with an unparsable reset value the fallback reset time is now, so
the pause is the minimum 1 unit rather than no pause. -/
theorem C8_guard_amended (iso : String → Option Int) (now : Int) (r : HttpResponse) :
    (r.rlLimit = none → rateLimitGuard iso now r = none)
    ∧ (r.rlRemaining = none → rateLimitGuard iso now r = none)
    ∧ (r.rlReset = none → rateLimitGuard iso now r = none)
    ∧ (pyToInt (r.rlLimit.getD "") = none → rateLimitGuard iso now r = none)
    ∧ (pyToInt (r.rlRemaining.getD "") = none → rateLimitGuard iso now r = none)
    ∧ (∀ rem, pyToInt (r.rlRemaining.getD "") = some rem → rem ≠ 1 →
        rateLimitGuard iso now r = none)
    ∧ (∀ w, rateLimitGuard iso now r = some w → 1 ≤ w)
    ∧ (truthyS r.rlLimit = true → truthyS r.rlRemaining = true →
        truthyS r.rlReset = true →
        (∃ L, pyToInt (r.rlLimit.getD "") = some L) →
        pyToInt (r.rlRemaining.getD "") = some 1 →
        pyIsdigit (r.rlReset.getD "") = true →
        rateLimitGuard iso now r
          = some (max ((pyToInt (r.rlReset.getD "")).getD now - now) 1))
    ∧ (truthyS r.rlLimit = true → truthyS r.rlRemaining = true →
        truthyS r.rlReset = true →
        (∃ L, pyToInt (r.rlLimit.getD "") = some L) →
        pyToInt (r.rlRemaining.getD "") = some 1 →
        pyIsdigit (r.rlReset.getD "") = false →
        iso (rstripZ (r.rlReset.getD "")) = none →
        rateLimitGuard iso now r = some 1) := by
  refine ⟨?_, ?_, ?_, ?_, ?_, ?_, ?_, ?_, ?_⟩
  · intro hL
    simp [rateLimitGuard, hL, truthyS]
  · intro hR
    simp [rateLimitGuard, hR, truthyS]
  · intro hE
    simp [rateLimitGuard, hE, truthyS]
  · intro hd
    unfold rateLimitGuard
    by_cases hcond :
        (truthyS r.rlLimit && truthyS r.rlRemaining && truthyS r.rlReset) = true
    · rw [if_pos hcond]
      simp [hd]
    · rw [if_neg hcond]
  · intro he
    unfold rateLimitGuard
    by_cases hcond :
        (truthyS r.rlLimit && truthyS r.rlRemaining && truthyS r.rlReset) = true
    · rw [if_pos hcond]
      cases hL : pyToInt (r.rlLimit.getD "") <;> simp [hL, he]
    · rw [if_neg hcond]
  · intro rem hrem hne
    unfold rateLimitGuard
    by_cases hcond :
        (truthyS r.rlLimit && truthyS r.rlRemaining && truthyS r.rlReset) = true
    · rw [if_pos hcond]
      cases hL : pyToInt (r.rlLimit.getD "") with
      | none => simp [hL]
      | some L => simp [hL, hrem, hne]
    · rw [if_neg hcond]
  · intro w hw
    unfold rateLimitGuard at hw
    by_cases hcond :
        (truthyS r.rlLimit && truthyS r.rlRemaining && truthyS r.rlReset) = true
    · rw [if_pos hcond] at hw
      cases hL : pyToInt (r.rlLimit.getD "") with
      | none => simp [hL] at hw
      | some L =>
        simp only [hL] at hw
        cases hR : pyToInt (r.rlRemaining.getD "") with
        | none => simp [hR] at hw
        | some rem =>
          simp only [hR] at hw
          by_cases hrem : rem = 1
          · rw [if_pos hrem] at hw
            have hmax := Option.some.inj hw
            rw [← hmax]
            exact le_max_right _ _
          · rw [if_neg hrem] at hw
            cases hw
    · rw [if_neg hcond] at hw
      cases hw
  · intro h1 h2 h3 h4 h5 h6
    obtain ⟨L, hL⟩ := h4
    simp [rateLimitGuard, h1, h2, h3, hL, h5, h6]
  · intro h1 h2 h3 h4 h5 h6 h7
    obtain ⟨L, hL⟩ := h4
    simp [rateLimitGuard, h1, h2, h3, hL, h5, h6, h7]

theorem C8_guard_amended_witness :
    rateLimitGuard isoNone 0 ⟨200, none, some "300", some "1", some "10"⟩ = some 10
    ∧ rateLimitGuard isoNone 0 ⟨200, none, some "300", some "1", some "bogus"⟩ = some 1
    ∧ rateLimitGuard isoNone 0 ⟨200, none, some "300", some "5", some "10"⟩ = none
    ∧ rateLimitGuard isoNone 0 ⟨200, none, some "xyz", some "1", some "10"⟩ = none := by
  refine ⟨?_, ?_, ?_, ?_⟩
  · have h := (C8_guard_amended isoNone 0
        ⟨200, none, some "300", some "1", some "10"⟩).2.2.2.2.2.2.2.1
      (by decide) (by decide) (by decide) ⟨300, by decide⟩ (by decide) (by decide)
    rw [h]
    decide
  · exact (C8_guard_amended isoNone 0
        ⟨200, none, some "300", some "1", some "bogus"⟩).2.2.2.2.2.2.2.2
      (by decide) (by decide) (by decide) ⟨300, by decide⟩ (by decide) (by decide) rfl
  · exact (C8_guard_amended isoNone 0
        ⟨200, none, some "300", some "5", some "10"⟩).2.2.2.2.2.1
      5 (by decide) (by decide)
  · exact (C8_guard_amended isoNone 0
        ⟨200, none, some "xyz", some "1", some "10"⟩).2.2.2.1 (by decide)

/-- C9: the remote-state fetcher stops as soon as a page carries no
rel next continuation link — one more page is fetched and its domains are
added — and the concrete two-page remote state of 2 distinct domains per
page, the first page carrying a next-page link, yields a 4-element current
set. -/
theorem C9_pagination (fetch : String → List String × String) (url : String)
    (acc : Finset String) (fuel : Nat)
    (hurl : url ≠ "") (hstop : parseNextLink (fetch url).2 = "") :
    getExistingBlocksAux fetch (fuel + 1) url acc = some (addLower acc (fetch url).1)
    ∧ ((getExistingBlocks pages2 5 "page1").getD ∅).card = 4 := by
  constructor
  · simp only [getExistingBlocksAux, hurl, if_false, hstop]
    cases fuel <;> simp [getExistingBlocksAux]
  · decide

theorem C9_pagination_witness :
    getExistingBlocksAux pagesOne (0 + 1) "u" ∅ = some (addLower ∅ (pagesOne "u").1)
    ∧ ((getExistingBlocks pages2 5 "page1").getD ∅).card = 4 :=
  C9_pagination pagesOne "u" ∅ 0 (by decide) (by decide)

end SyncSpec
